import Mathlib

/-!
Verification of the Digit Recognizer notebooks (Nomehh/DeepLearning).

The repository consists of two Jupyter notebooks that load CSV pixel data,
reshape and normalize it, split it into train/validation sets, train a CNN,
predict on a test CSV and write a submission file.  This file gives a shallow
embedding of the data pipeline: pixels become rationals, tables become lists,
and each library call the notebooks make (sklearn train_test_split, numpy
reshape and argmax, pandas DataFrame construction, the keras ImageDataGenerator
configuration) is embedded with its documented semantics at the call sites
appearing in the notebooks.
-/

namespace DigitRecognizer

/-! ### The train/validation splitter

Both notebooks call
train_test_split(images, labels, test_size=0.2, random_state=42).
sklearn draws a seeded permutation of the indices 0..n-1, computes
n_test = ceil(test_size * n) and n_train = n - n_test, takes the first
n_test permuted indices as the test (validation) block and the next
n_train as the train block, and returns (X_train, X_test, y_train, y_test).
The pseudo-random permutation itself lives inside numpy; we model it as a
parameter perm : seed -> n -> permutation of the range, constrained where
needed to actually be a permutation.  A random_state of none means sklearn
falls back to the ambient global generator state, which we model by an
extra globalState argument. -/

/-- Number of validation examples: sklearn computes ceil(test_size * n);
for test_size = 0.2 the floating point product rounds to a value whose
ceiling is the exact ceiling of n / 5, modelled here as Nat arithmetic. -/
def nTest (n : Nat) : Nat := (n + 4) / 5

/-- Number of training examples: sklearn computes n - nTest n. -/
def nTrain (n : Nat) : Nat := n - nTest n

/-- The four outputs of train_test_split, in the order sklearn returns
them and the notebooks bind them. -/
structure SplitResult (α β : Type) where
  xTrain : List α
  xVal : List α
  yTrain : List β
  yVal : List β

/-- Fancy indexing: select the elements of xs at the given index list. -/
def selectIdx {α : Type} (xs : List α) (idx : List Nat) : List α :=
  idx.filterMap (fun i => xs[i]?)

/-- Shallow embedding of sklearn train_test_split at the notebooks call
site: perm is the seeded index permutation drawn by numpy, randomState the
random_state argument (the notebooks pass 42), globalState the ambient
generator state used only when random_state is absent. -/
def train_test_split {α β : Type} (perm : Nat → Nat → List Nat)
    (randomState : Option Nat) (globalState : Nat)
    (xs : List α) (ys : List β) : SplitResult α β :=
  let n := xs.length
  let p := perm (randomState.getD globalState) n
  let testIdx := p.take (nTest n)
  let trainIdx := (p.drop (nTest n)).take (nTrain n)
  ⟨selectIdx xs trainIdx, selectIdx xs testIdx,
   selectIdx ys trainIdx, selectIdx ys testIdx⟩

/-- The identity permutation oracle, used to instantiate theorems about
the splitter at concrete inputs. -/
def permIdentity : Nat → Nat → List Nat := fun _ n => List.range n

/-- Selecting at every index of the range reproduces the list. -/
theorem selectIdx_range (xs : List α) :
    selectIdx xs (List.range xs.length) = xs := by
  induction xs with
  | nil => rfl
  | cons a t ih =>
    simp only [selectIdx, List.length_cons, List.range_succ_eq_map,
      List.filterMap_cons, List.filterMap_map, List.getElem?_cons_zero]
    have hc : ((fun i => (a :: t)[i]?) ∘ Nat.succ) = fun i => t[i]? := by
      funext i
      simp
    rw [hc]
    simpa [selectIdx] using ih

/-- Selection at in-bounds indices loses nothing. -/
theorem selectIdx_length (xs : List α) (idx : List Nat)
    (h : ∀ i ∈ idx, i < xs.length) : (selectIdx xs idx).length = idx.length := by
  induction idx with
  | nil => rfl
  | cons i t ih =>
    have hi : i < xs.length := h i (by simp)
    simp only [selectIdx, List.filterMap_cons, List.getElem?_eq_getElem hi]
    simpa [selectIdx] using ih (fun j hj => h j (by simp [hj]))

/-- Selecting along a permutation of all indices permutes the list. -/
theorem selectIdx_perm (xs : List α) (p : List Nat)
    (hp : List.Perm p (List.range xs.length)) :
    List.Perm (selectIdx xs p) xs := by
  have h1 : List.Perm (selectIdx xs p) (selectIdx xs (List.range xs.length)) :=
    List.Perm.filterMap _ hp
  rw [selectIdx_range] at h1
  exact h1

/-- Splitting a selection at a cut point covers the whole selection. -/
theorem selectIdx_take_drop (xs : List α) (p : List Nat) (k : Nat) :
    selectIdx xs (p.take k) ++ selectIdx xs (p.drop k) = selectIdx xs p := by
  simp only [selectIdx, ← List.filterMap_append, List.take_append_drop]

/-- Claim C1, amended: with test_size 0.2 and random_state 42, the splitter
produces a training block of size n - ceil(n/5), a validation block of size
ceil(n/5), and together they are a permutation of the input, so every
example lands in exactly one block. -/
theorem C1_split_partition {α β : Type} (perm : Nat → Nat → List Nat)
    (g : Nat) (xs : List α) (ys : List β)
    (hperm : List.Perm (perm 42 xs.length) (List.range xs.length))
    (hlen : ys.length = xs.length) :
    (train_test_split perm (some 42) g xs ys).xTrain.length = nTrain xs.length ∧
    (train_test_split perm (some 42) g xs ys).xVal.length = nTest xs.length ∧
    List.Perm ((train_test_split perm (some 42) g xs ys).xTrain ++
      (train_test_split perm (some 42) g xs ys).xVal) xs ∧
    List.Perm ((train_test_split perm (some 42) g xs ys).yTrain ++
      (train_test_split perm (some 42) g xs ys).yVal) ys := by
  have hplen : (perm 42 xs.length).length = xs.length := by
    simpa using hperm.length_eq
  have hmem : ∀ i ∈ perm 42 xs.length, i < xs.length := by
    intro i hi
    have := hperm.mem_iff.mp hi
    simpa using this
  have hcut : nTest xs.length ≤ xs.length := by
    unfold nTest; omega
  have hdroplen : ((perm 42 xs.length).drop (nTest xs.length)).length
      = nTrain xs.length := by
    simp [hplen, nTrain]
  have htake : ((perm 42 xs.length).drop (nTest xs.length)).take (nTrain xs.length)
      = (perm 42 xs.length).drop (nTest xs.length) := by
    apply List.take_of_length_le
    omega
  have htakelen : ((perm 42 xs.length).take (nTest xs.length)).length
      = nTest xs.length := by
    simp [hplen, hcut]
  have hmemtake : ∀ i ∈ (perm 42 xs.length).take (nTest xs.length), i < xs.length :=
    fun i hi => hmem i (List.mem_of_mem_take hi)
  have hmemdrop : ∀ i ∈ (perm 42 xs.length).drop (nTest xs.length), i < xs.length :=
    fun i hi => hmem i (List.mem_of_mem_drop hi)
  refine ⟨?_, ?_, ?_, ?_⟩
  · simp only [train_test_split, Option.getD_some, htake]
    rw [selectIdx_length _ _ hmemdrop, hdroplen]
  · simp only [train_test_split, Option.getD_some]
    rw [selectIdx_length _ _ hmemtake, htakelen]
  · simp only [train_test_split, Option.getD_some, htake]
    refine List.Perm.trans List.perm_append_comm ?_
    rw [selectIdx_take_drop xs (perm 42 xs.length) (nTest xs.length)]
    exact selectIdx_perm xs _ hperm
  · simp only [train_test_split, Option.getD_some, htake]
    refine List.Perm.trans List.perm_append_comm ?_
    rw [selectIdx_take_drop ys (perm 42 xs.length) (nTest xs.length)]
    apply selectIdx_perm ys
    rw [hlen]
    exact hperm

/-- Witness for C1_split_partition: six labeled examples under the identity
permutation split into a training block of four and a validation block of
two, covering the input exactly once. -/
theorem C1_split_partition_witness :
    List.Perm (permIdentity 42 6) (List.range 6) ∧
    ((train_test_split permIdentity (some 42) 0
        [10, 20, 30, 40, 50, 60] [0, 1, 2, 3, 4, 5]).xTrain.length = nTrain 6 ∧
     (train_test_split permIdentity (some 42) 0
        [10, 20, 30, 40, 50, 60] [0, 1, 2, 3, 4, 5]).xVal.length = nTest 6 ∧
     List.Perm ((train_test_split permIdentity (some 42) 0
        [10, 20, 30, 40, 50, 60] [0, 1, 2, 3, 4, 5]).xTrain ++
       (train_test_split permIdentity (some 42) 0
        [10, 20, 30, 40, 50, 60] [0, 1, 2, 3, 4, 5]).xVal) [10, 20, 30, 40, 50, 60] ∧
     List.Perm ((train_test_split permIdentity (some 42) 0
        [10, 20, 30, 40, 50, 60] [0, 1, 2, 3, 4, 5]).yTrain ++
       (train_test_split permIdentity (some 42) 0
        [10, 20, 30, 40, 50, 60] [0, 1, 2, 3, 4, 5]).yVal) [0, 1, 2, 3, 4, 5]) :=
  ⟨List.Perm.refl _,
   C1_split_partition permIdentity 0 [10, 20, 30, 40, 50, 60] [0, 1, 2, 3, 4, 5]
     (List.Perm.refl _) rfl⟩

/-- Counterexample to claim C1 as stated: the training block does not have
ceil(0.8 * n) elements for every n.  At n = 6 the splitter produces a
training block of 4 examples while ceil(0.8 * 6) = 5. -/
theorem C1_claim_counterexample :
    ¬ ∀ (perm : Nat → Nat → List Nat) (g : Nat) (xs ys : List Nat),
        List.Perm (perm 42 xs.length) (List.range xs.length) →
        ys.length = xs.length →
        (train_test_split perm (some 42) g xs ys).xTrain.length
          = (4 * xs.length + 4) / 5 := by
  intro h
  have h6 := h permIdentity 0 [0, 1, 2, 3, 4, 5] [0, 1, 2, 3, 4, 5]
    (List.Perm.refl _) rfl
  exact absurd h6 (by decide)

/-- Claim C2: the split is deterministic.  With random_state fixed to 42 the
result does not depend on the ambient generator state, so two runs on the
same input in the same order produce identical partitions. -/
theorem C2_split_deterministic {α β : Type} (perm : Nat → Nat → List Nat)
    (g g₂ : Nat) (xs : List α) (ys : List β) :
    train_test_split perm (some 42) g xs ys
      = train_test_split perm (some 42) g₂ xs ys := rfl

/-! ### The loader/normalizer

Both notebooks slice the label column off the training table, reshape the
pixel columns with reshape((-1, 28, 28, 1)), convert to float and divide by
255.  A flat row of raw pixels is a list of naturals, a normalized pixel a
rational, and the row-major reshape is chunking: 784 flat values become 28
rows of 28 columns of one channel each. -/

/-- Normalization of one raw pixel value, astype(float32) / 255 in the
source, modelled exactly over the rationals. -/
def pixel (v : Nat) : ℚ := (v : ℚ) / 255

/-- Group a flat list into consecutive chunks of k elements, the way a
row-major reshape does; a trailing chunk is shorter when k does not divide
the length. -/
def chunk {α : Type} (k : Nat) : List α → List (List α)
  | [] => []
  | x :: xs =>
    if _h : k = 0 then []
    else (x :: xs).take k :: chunk k ((x :: xs).drop k)
termination_by l => l.length
decreasing_by
  simp only [List.length_drop, List.length_cons]
  omega

/-- Flattening the chunks restores the flat list. -/
theorem chunk_join {α : Type} (k : Nat) (hk : k ≠ 0) :
    ∀ xs : List α, (chunk k xs).flatten = xs
  | [] => by simp [chunk]
  | x :: t => by
    rw [chunk]
    rw [dif_neg hk, List.flatten_cons, chunk_join k hk ((x :: t).drop k),
      List.take_append_drop]
termination_by xs => xs.length
decreasing_by
  simp only [List.length_drop, List.length_cons]
  omega

/-- When k divides the length as k * m, chunking yields exactly m chunks. -/
theorem chunk_length {α : Type} (k : Nat) (hk : k ≠ 0) :
    ∀ (xs : List α) (m : Nat), xs.length = k * m → (chunk k xs).length = m
  | [], m, hm => by
    simp only [chunk, List.length_nil] at hm ⊢
    rcases Nat.mul_eq_zero.mp hm.symm with h | h
    · exact absurd h hk
    · exact h.symm
  | x :: t, m, hm => by
    match m with
    | 0 => simp at hm
    | m + 1 =>
      rw [chunk]
      rw [dif_neg hk, List.length_cons]
      have hm2 : t.length + 1 = k * m + k := by
        have := hm
        simp only [List.length_cons, Nat.mul_succ] at this
        exact this
      have hd : ((x :: t).drop k).length = k * m := by
        simp only [List.length_drop, List.length_cons]
        omega
      rw [chunk_length k hk _ m hd]
termination_by xs => xs.length
decreasing_by
  simp only [List.length_drop, List.length_cons]
  omega

/-- When k divides the length, every chunk has exactly k elements. -/
theorem chunk_mem_length {α : Type} (k : Nat) (hk : k ≠ 0) :
    ∀ (xs : List α) (m : Nat), xs.length = k * m →
      ∀ c ∈ chunk k xs, c.length = k
  | [], _, _, c, hc => by simp [chunk] at hc
  | x :: t, m, hm, c, hc => by
    match m with
    | 0 => simp at hm
    | m + 1 =>
      rw [chunk] at hc
      rw [dif_neg hk, List.mem_cons] at hc
      have hlen : t.length + 1 = k * m + k := by
        have := hm
        simp only [List.length_cons, Nat.mul_succ] at this
        exact this
      rcases hc with h | h
      · subst h
        simp only [List.length_take, List.length_cons]
        omega
      · have hd : ((x :: t).drop k).length = k * m := by
          simp only [List.length_drop, List.length_cons]
          omega
        exact chunk_mem_length k hk _ m hd c h
termination_by xs => xs.length
decreasing_by
  simp only [List.length_drop, List.length_cons]
  omega

/-- Flattening a list of singleton-wrapped elements recovers the list. -/
theorem join_map_singleton {α : Type} (l : List α) :
    (l.map (fun q => [q])).flatten = l := by
  induction l with
  | nil => rfl
  | cons a t ih => simp [ih]

/-- One training or test row through the loader: normalize each of the 784
raw pixels and reshape row-major into 28 rows of 28 columns of 1 channel. -/
def reshapeRow (row : List Nat) : List (List (List ℚ)) :=
  (chunk 28 (row.map pixel)).map (List.map (fun q => [q]))

/-- A normalized pixel from a raw value of at most 255 lies in [0, 1]. -/
theorem pixel_mem_unit (v : Nat) (h : v ≤ 255) : 0 ≤ pixel v ∧ pixel v ≤ 1 := by
  constructor
  · exact div_nonneg (by exact_mod_cast Nat.zero_le v) (by norm_num)
  · rw [pixel, div_le_one (by norm_num)]
    exact_mod_cast h

/-- Claim C3: a row of 784 raw pixels in [0, 255] becomes a 28 x 28 x 1
tensor whose elements are exactly the raw values divided by 255 and all lie
in [0, 1]. -/
theorem C3_loader_normalizes (row : List Nat) (hlen : row.length = 784)
    (hb : ∀ v ∈ row, v ≤ 255) :
    (reshapeRow row).length = 28 ∧
    (∀ r ∈ reshapeRow row, r.length = 28 ∧ ∀ c ∈ r, c.length = 1) ∧
    (reshapeRow row).flatten.flatten = row.map pixel ∧
    (∀ r ∈ reshapeRow row, ∀ c ∈ r, ∀ q ∈ c, 0 ≤ q ∧ q ≤ 1) := by
  have hlen2 : (row.map pixel).length = 28 * 28 := by
    simp [hlen]
  refine ⟨?_, ?_, ?_, ?_⟩
  · simp only [reshapeRow, List.length_map]
    exact chunk_length 28 (by norm_num) _ 28 hlen2
  · intro r hr
    simp only [reshapeRow, List.mem_map] at hr
    obtain ⟨r0, hr0, rfl⟩ := hr
    refine ⟨?_, ?_⟩
    · simp only [List.length_map]
      exact chunk_mem_length 28 (by norm_num) _ 28 hlen2 r0 hr0
    · intro c hc
      simp only [List.mem_map] at hc
      obtain ⟨q, _, rfl⟩ := hc
      rfl
  · simp only [reshapeRow]
    rw [← List.map_flatten, join_map_singleton, chunk_join 28 (by norm_num)]
  · intro r hr c hc q hq
    simp only [reshapeRow, List.mem_map] at hr
    obtain ⟨r0, hr0, rfl⟩ := hr
    simp only [List.mem_map] at hc
    obtain ⟨q0, hq0, rfl⟩ := hc
    simp only [List.mem_singleton] at hq
    have hjoin : q0 ∈ row.map pixel := by
      rw [← chunk_join 28 (by norm_num) (row.map pixel)]
      exact List.mem_flatten.mpr ⟨r0, hr0, hq0⟩
    obtain ⟨v, hv, hpv⟩ := List.mem_map.mp hjoin
    rw [hq, ← hpv]
    exact pixel_mem_unit v (hb v hv)

/-- Witness for C3_loader_normalizes: the all-zero row of 784 raw pixels. -/
theorem C3_loader_normalizes_witness :
    ((List.replicate 784 0).length = 784 ∧ ∀ v ∈ List.replicate 784 0, v ≤ 255) ∧
    ((reshapeRow (List.replicate 784 0)).length = 28 ∧
     (∀ r ∈ reshapeRow (List.replicate 784 0), r.length = 28 ∧ ∀ c ∈ r, c.length = 1) ∧
     (reshapeRow (List.replicate 784 0)).flatten.flatten
       = (List.replicate 784 0).map pixel ∧
     (∀ r ∈ reshapeRow (List.replicate 784 0), ∀ c ∈ r, ∀ q ∈ c, 0 ≤ q ∧ q ≤ 1)) :=
  ⟨⟨by simp only [List.length_replicate],
    fun v hv => by rw [List.eq_of_mem_replicate hv]; exact Nat.zero_le 255⟩,
   C3_loader_normalizes (List.replicate 784 0) (by simp only [List.length_replicate])
     (fun v hv => by rw [List.eq_of_mem_replicate hv]; exact Nat.zero_le 255)⟩

/-! ### The predictor

model.predict produces one 10-way probability vector per test image and
np.argmax(predictions, axis=1) picks, per row, the index of the largest
entry; the numpy scan keeps the current maximum and only replaces it on a
strictly larger value, so ties resolve to the first occurrence. -/

/-- np.argmax over one row: the first index at which the row attains its
maximum value. -/
def argmax (l : List ℚ) : Nat :=
  l.findIdx (fun x => decide (∀ y ∈ l, y ≤ x))

/-- Every nonempty list of rationals attains a maximum. -/
theorem exists_max_mem : ∀ l : List ℚ, l ≠ [] → ∃ x ∈ l, ∀ y ∈ l, y ≤ x
  | [], h => absurd rfl h
  | [a], _ => ⟨a, by simp, by simp⟩
  | a :: b :: t, _ => by
    obtain ⟨x, hx, hmax⟩ := exists_max_mem (b :: t) (by simp)
    rcases le_total x a with hle | hle
    · refine ⟨a, by simp, ?_⟩
      intro y hy
      rcases List.mem_cons.mp hy with rfl | hy
      · exact le_refl y
      · exact le_trans (hmax y hy) hle
    · refine ⟨x, List.mem_cons_of_mem a hx, ?_⟩
      intro y hy
      rcases List.mem_cons.mp hy with rfl | hy
      · exact hle
      · exact hmax y hy

/-- The arg-max index of a nonempty row is in bounds. -/
theorem argmax_lt_length (l : List ℚ) (hl : l ≠ []) : argmax l < l.length := by
  apply List.findIdx_lt_length_of_exists
  obtain ⟨x, hx, hmax⟩ := exists_max_mem l hl
  refine ⟨x, hx, ?_⟩
  simpa using hmax

/-- getD agrees with get at in-bounds indices. -/
theorem getD_eq_get_of_lt (l : List ℚ) (i : Nat) (h : i < l.length) :
    l.getD i 0 = l.get ⟨i, h⟩ := by
  rw [List.get_eq_getElem]
  simp [List.getD_eq_getElem?_getD, List.getElem?_eq_getElem h]

/-- The row attains its maximum at the arg-max index. -/
theorem argmax_get_max (l : List ℚ) (hl : l ≠ []) :
    ∀ y ∈ l, y ≤ l.get ⟨argmax l, argmax_lt_length l hl⟩ := by
  have hlt := argmax_lt_length l hl
  have hsome : l[argmax l]? = some (l.get ⟨argmax l, hlt⟩) := by
    rw [List.get_eq_getElem]
    exact List.getElem?_eq_getElem hlt
  have h := List.findIdx_of_getElem?_eq_some hsome
  simpa using h

/-- The row attains its maximum at the arg-max index, getD form. -/
theorem argmax_getD_max (l : List ℚ) (hl : l ≠ []) :
    ∀ y ∈ l, y ≤ l.getD (argmax l) 0 := by
  intro y hy
  rw [getD_eq_get_of_lt _ _ (argmax_lt_length l hl)]
  exact argmax_get_max l hl y hy

/-- Claim C4: on a 10-way probability row the predictor returns an index
below 10 at which the row is maximal, and every earlier index holds a
strictly smaller value, so ties break to the lowest class index. -/
theorem C4_argmax_first_max (probs : List ℚ) (hlen : probs.length = 10) :
    argmax probs < 10 ∧
    (∀ j, j < 10 → probs.getD j 0 ≤ probs.getD (argmax probs) 0) ∧
    (∀ j, j < argmax probs → probs.getD j 0 < probs.getD (argmax probs) 0) := by
  have hne : probs ≠ [] := by
    intro h
    rw [h] at hlen
    simp at hlen
  have hlt : argmax probs < probs.length := argmax_lt_length probs hne
  refine ⟨hlen ▸ hlt, ?_, ?_⟩
  · intro j hj
    have hj2 : j < probs.length := by omega
    rw [getD_eq_get_of_lt _ _ hj2]
    exact argmax_getD_max probs hne _ (List.get_mem _ _ hj2)
  · intro j hj
    have hj2 : j < probs.length := lt_trans hj hlt
    have hfalse := List.not_of_lt_findIdx hj
    simp only [decide_eq_false_iff_not] at hfalse
    push_neg at hfalse
    obtain ⟨y, hy, hylt⟩ := hfalse
    rw [getD_eq_get_of_lt _ _ hj2]
    have h1 : probs.get ⟨j, hj2⟩ < y := hylt
    exact lt_of_lt_of_le h1 (argmax_getD_max probs hne y hy)

/-- Witness for C4_argmax_first_max on a row with a tie between classes 3
and 7: the conclusion holds at the concrete argmax. -/
theorem C4_argmax_first_max_witness :
    ([0, 1, 2, 5, 3, 4, 1, 5, 0, 2] : List ℚ).length = 10 ∧
    (argmax [0, 1, 2, 5, 3, 4, 1, 5, 0, 2] < 10 ∧
     (∀ j, j < 10 → ([0, 1, 2, 5, 3, 4, 1, 5, 0, 2] : List ℚ).getD j 0
        ≤ ([0, 1, 2, 5, 3, 4, 1, 5, 0, 2] : List ℚ).getD
            (argmax [0, 1, 2, 5, 3, 4, 1, 5, 0, 2]) 0) ∧
     (∀ j, j < argmax [0, 1, 2, 5, 3, 4, 1, 5, 0, 2] →
        ([0, 1, 2, 5, 3, 4, 1, 5, 0, 2] : List ℚ).getD j 0
          < ([0, 1, 2, 5, 3, 4, 1, 5, 0, 2] : List ℚ).getD
              (argmax [0, 1, 2, 5, 3, 4, 1, 5, 0, 2]) 0)) :=
  ⟨rfl, C4_argmax_first_max [0, 1, 2, 5, 3, 4, 1, 5, 0, 2] rfl⟩

/-! ### The submission writer

predicted_classes = np.argmax(predictions, axis=1); the notebooks then
build a DataFrame with ImageId = np.arange(1, len + 1) and
Label = predicted_classes, and write it with to_csv(index=False). -/

/-- The predicted label per test row: row-wise argmax of the prediction
matrix. -/
def predictedClasses (predictions : List (List ℚ)) : List Nat :=
  predictions.map argmax

/-- np.arange(a, b): the integers from a up to b - 1, in order. -/
def arange (a b : Nat) : List Nat :=
  (List.range (b - a)).map (fun i => i + a)

/-- The header line to_csv(index=False) writes for the two columns. -/
def submissionHeader : String := "ImageId,Label"

/-- The submission table body: ImageId paired with Label, row by row. -/
def submission (labels : List Nat) : List (Nat × Nat) :=
  (arange 1 (labels.length + 1)).zip labels

/-- submission.csv as a list of lines: the header, then one line per row. -/
def submissionCSV (labels : List Nat) : List String :=
  submissionHeader ::
    (submission labels).map (fun r => toString r.1 ++ "," ++ toString r.2)

/-- Claim C5: the submission has exactly one row per test prediction, the
ImageId column is exactly 1..N in input order, the Label column is exactly
the predicted classes in input order, every label is at most 9, and the
CSV consists of the ImageId,Label header followed by the N rows. -/
theorem C5_submission_format (predictions : List (List ℚ))
    (hp : ∀ p ∈ predictions, p.length = 10) :
    (submission (predictedClasses predictions)).length = predictions.length ∧
    (submission (predictedClasses predictions)).map Prod.fst
      = (List.range predictions.length).map (fun i => i + 1) ∧
    (submission (predictedClasses predictions)).map Prod.snd
      = predictedClasses predictions ∧
    (∀ pr ∈ submission (predictedClasses predictions), pr.2 ≤ 9) ∧
    (submissionCSV (predictedClasses predictions)).length = predictions.length + 1 ∧
    (submissionCSV (predictedClasses predictions)).head? = some submissionHeader := by
  have hlab : (predictedClasses predictions).length = predictions.length := by
    simp [predictedClasses]
  have har2 : (arange 1 (predictions.length + 1)).length = predictions.length := by
    simp [arange]
  refine ⟨?_, ?_, ?_, ?_, ?_, ?_⟩
  · simp [submission, hlab, har2]
  · rw [submission, List.map_fst_zip _ _ (by simp [arange, hlab])]
    simp [arange, hlab]
  · rw [submission, List.map_snd_zip _ _ (by simp [arange, hlab])]
  · intro pr hpr
    obtain ⟨a, b⟩ := pr
    simp only [submission] at hpr
    have hsnd : b ∈ predictedClasses predictions := (List.of_mem_zip hpr).2
    obtain ⟨p, hpmem, hpeq⟩ := List.mem_map.mp hsnd
    have hne : p ≠ [] := by
      intro h
      have := hp p hpmem
      rw [h] at this
      simp at this
    have := argmax_lt_length p hne
    rw [hp p hpmem] at this
    omega
  · simp [submissionCSV, submission, hlab, har2]
  · rfl

/-- Witness for C5_submission_format: two concrete prediction rows give a
two-row submission with ImageId 1, 2 and in-range labels. -/
theorem C5_submission_format_witness :
    (∀ p ∈ [[0, 1, 2, 5, 3, 4, 1, 5, 0, 2], [9, 1, 2, 5, 3, 4, 1, 5, 0, 2]]
      , p.length = 10) ∧
    ((submission (predictedClasses
        [[0, 1, 2, 5, 3, 4, 1, 5, 0, 2], [9, 1, 2, 5, 3, 4, 1, 5, 0, 2]])).length = 2 ∧
     (submission (predictedClasses
        [[0, 1, 2, 5, 3, 4, 1, 5, 0, 2], [9, 1, 2, 5, 3, 4, 1, 5, 0, 2]])).map Prod.fst
       = (List.range 2).map (fun i => i + 1) ∧
     (submission (predictedClasses
        [[0, 1, 2, 5, 3, 4, 1, 5, 0, 2], [9, 1, 2, 5, 3, 4, 1, 5, 0, 2]])).map Prod.snd
       = predictedClasses
          [[0, 1, 2, 5, 3, 4, 1, 5, 0, 2], [9, 1, 2, 5, 3, 4, 1, 5, 0, 2]] ∧
     (∀ pr ∈ submission (predictedClasses
        [[0, 1, 2, 5, 3, 4, 1, 5, 0, 2], [9, 1, 2, 5, 3, 4, 1, 5, 0, 2]]), pr.2 ≤ 9) ∧
     (submissionCSV (predictedClasses
        [[0, 1, 2, 5, 3, 4, 1, 5, 0, 2], [9, 1, 2, 5, 3, 4, 1, 5, 0, 2]])).length = 2 + 1 ∧
     (submissionCSV (predictedClasses
        [[0, 1, 2, 5, 3, 4, 1, 5, 0, 2], [9, 1, 2, 5, 3, 4, 1, 5, 0, 2]])).head?
       = some submissionHeader) :=
  ⟨by decide, C5_submission_format
    [[0, 1, 2, 5, 3, 4, 1, 5, 0, 2], [9, 1, 2, 5, 3, 4, 1, 5, 0, 2]] (by decide)⟩

/-! ### The model and the training loop configuration -/

/-- A 28 x 28 x 1 image tensor as the loader produces it. -/
abbrev Image := List (List (List ℚ))

/-- A trained, frozen model: the forward pass maps an image to a 10-way
class probability vector, with the weights fixed inside the function.  At
inference keras applies no dropout and no augmentation, and batch
normalization uses its stored moving statistics, so the forward pass is a
pure function of the image alone. -/
structure Model where
  forward : Image → List ℚ

/-- model.predict with the ambient random generator state threaded
through explicitly: inference consumes no randomness, so the state passes
through untouched. -/
def predictRun (m : Model) (imgs : List Image) (rng : Nat) :
    List (List ℚ) × Nat :=
  (imgs.map m.forward, rng)

/-- model.predict as the notebooks call it: the prediction matrix. -/
def predict (m : Model) (imgs : List Image) : List (List ℚ) :=
  (predictRun m imgs 0).1

/-- Claim C8: inference is deterministic.  Running model.predict twice on
the same frozen model and the same test set, the second run starting from
whatever generator state the first run left behind, yields identical
prediction matrices. -/
theorem C8_predict_deterministic (m : Model) (imgs : List Image) (g : Nat) :
    (predictRun m imgs ((predictRun m imgs g).2)).1
      = (predictRun m imgs g).1 := rfl

/-- The loss functions the notebooks pass to model.compile. -/
inductive Loss
  | categoricalCrossentropy
  | sparseCategoricalCrossentropy
deriving DecidableEq

/-- The optimizer both notebooks pass to model.compile. -/
inductive Optimizer
  | adam
deriving DecidableEq

/-- The model.compile arguments. -/
structure CompileConfig where
  optimizer : Optimizer
  loss : Loss
  metrics : List String

/-- model.compile of notebook 1: adam, categorical_crossentropy. -/
def notebook1Compile : CompileConfig :=
  ⟨Optimizer.adam, Loss.categoricalCrossentropy, ["accuracy"]⟩

/-- model.compile of notebook 2: adam, sparse_categorical_crossentropy. -/
def notebook2Compile : CompileConfig :=
  ⟨Optimizer.adam, Loss.sparseCategoricalCrossentropy, ["accuracy"]⟩

/-- The model.fit sizing arguments. -/
structure FitConfig where
  epochs : Nat
  batchSize : Nat

/-- model.fit of notebook 1: epochs=10, batch_size=64. -/
def notebook1Fit : FitConfig := ⟨10, 64⟩

/-- model.fit of notebook 2: datagen.flow(..., batch_size=64), epochs=10. -/
def notebook2Fit : FitConfig := ⟨10, 64⟩

/-- tf.keras.utils.to_categorical(y, num_classes): the one-hot row with a
1 at index y and 0 elsewhere. -/
def to_categorical (numClasses : Nat) (y : Nat) : List Nat :=
  (List.range numClasses).map (fun i => if i = y then 1 else 0)

/-- Training targets of notebook 1: one-hot encoded labels. -/
def notebook1Targets (labels : List Nat) : List (List Nat) :=
  labels.map (to_categorical 10)

/-- Training targets of notebook 2: the raw integer labels. -/
def notebook2Targets (labels : List Nat) : List Nat := labels

/-- One line of the keras fit history: training loss and accuracy and
validation loss and accuracy, printed once per epoch. -/
structure EpochReport where
  loss : ℚ
  accuracy : ℚ
  valLoss : ℚ
  valAccuracy : ℚ

/-- The keras fit loop per its documented behavior: run for exactly
cfg.epochs epochs and report one EpochReport per epoch; the numeric
evaluation of an epoch is the opaque parameter evalEpoch. -/
def fitHistory (cfg : FitConfig) (evalEpoch : Nat → EpochReport) :
    List EpochReport :=
  (List.range cfg.epochs).map evalEpoch

/-- Claim C6: both notebooks train for exactly 10 epochs with mini-batch
size 64 under the Adam optimizer; notebook 1 minimizes categorical
cross-entropy against one-hot targets, notebook 2 sparse categorical
cross-entropy against raw integer targets; and the fit history carries
training and validation metrics once per epoch. -/
theorem C6_training_configuration :
    notebook1Fit.epochs = 10 ∧ notebook1Fit.batchSize = 64 ∧
    notebook2Fit.epochs = 10 ∧ notebook2Fit.batchSize = 64 ∧
    notebook1Compile.optimizer = Optimizer.adam ∧
    notebook2Compile.optimizer = Optimizer.adam ∧
    notebook1Compile.loss = Loss.categoricalCrossentropy ∧
    notebook2Compile.loss = Loss.sparseCategoricalCrossentropy ∧
    (∀ labels : List Nat, notebook1Targets labels = labels.map (to_categorical 10)) ∧
    (∀ labels : List Nat, notebook2Targets labels = labels) ∧
    (∀ f : Nat → EpochReport, (fitHistory notebook1Fit f).length = 10) ∧
    (∀ f : Nat → EpochReport, (fitHistory notebook2Fit f).length = 10) := by
  refine ⟨rfl, rfl, rfl, rfl, rfl, rfl, rfl, rfl,
    fun _ => rfl, fun _ => rfl, ?_, ?_⟩
  · intro f
    simp [fitHistory, notebook1Fit]
  · intro f
    simp [fitHistory, notebook2Fit]

/-! ### The augmentor (notebook 2 only)

ImageDataGenerator(rotation_range=10, width_shift_range=0.1,
height_shift_range=0.1, zoom_range=0.1, shear_range=0.1,
horizontal_flip=False, fill_mode=nearest).  Keras draws, per sample and
per epoch, each transform parameter uniformly over the range the
configuration spans; one draw is modelled as seven uniform variates in
[0, 1] mapped affinely into the configured ranges. -/

/-- The fill strategies ImageDataGenerator accepts. -/
inductive FillMode
  | nearest
  | constant
  | reflect
  | wrap
deriving DecidableEq

/-- The ImageDataGenerator keyword arguments the notebook sets. -/
structure AugmentConfig where
  rotationRange : ℚ
  widthShiftRange : ℚ
  heightShiftRange : ℚ
  zoomRange : ℚ
  shearRange : ℚ
  horizontalFlip : Bool
  fillMode : FillMode

/-- The datagen configuration of notebook 2. -/
def datagen : AugmentConfig :=
  ⟨10, 1/10, 1/10, 1/10, 1/10, false, FillMode.nearest⟩

/-- One sampled random transform: rotation angle in degrees, shifts as
fractions of the image extent, zoom factors per axis, shear intensity,
flip flag and fill mode. -/
structure SampledTransform where
  theta : ℚ
  tx : ℚ
  ty : ℚ
  zx : ℚ
  zy : ℚ
  shear : ℚ
  flipHorizontal : Bool
  fillMode : FillMode

/-- Affine map sending a uniform variate u in [0, 1] into [lo, hi]. -/
def uniformIn (lo hi u : ℚ) : ℚ := lo + (hi - lo) * u

/-- Draw one random transform from the generator configuration, as keras
get_random_transform does: rotation uniform over plus or minus
rotation_range, shifts over plus or minus the shift ranges, the two zoom
factors over 1 plus or minus zoom_range, shear over plus or minus
shear_range, a fair coin for the horizontal flip only when enabled, and
the configured fill mode passed through. -/
def sampleTransform (cfg : AugmentConfig) (u : Fin 7 → ℚ) : SampledTransform :=
  ⟨uniformIn (-cfg.rotationRange) cfg.rotationRange (u 0),
   uniformIn (-cfg.widthShiftRange) cfg.widthShiftRange (u 1),
   uniformIn (-cfg.heightShiftRange) cfg.heightShiftRange (u 2),
   uniformIn (1 - cfg.zoomRange) (1 + cfg.zoomRange) (u 3),
   uniformIn (1 - cfg.zoomRange) (1 + cfg.zoomRange) (u 4),
   uniformIn (-cfg.shearRange) cfg.shearRange (u 5),
   cfg.horizontalFlip && decide (u 6 < 1/2),
   cfg.fillMode⟩

/-- The affine image of [0, 1] stays inside [lo, hi]. -/
theorem uniformIn_mem (lo hi u : ℚ) (hlh : lo ≤ hi) (h0 : 0 ≤ u) (h1 : u ≤ 1) :
    lo ≤ uniformIn lo hi u ∧ uniformIn lo hi u ≤ hi := by
  constructor
  · have hm := mul_nonneg (sub_nonneg.mpr hlh) h0
    show lo ≤ lo + (hi - lo) * u
    linarith
  · have hm := mul_le_of_le_one_right (sub_nonneg.mpr hlh) h1
    show lo + (hi - lo) * u ≤ hi
    linarith

/-- Claim C7: every transform the notebook 2 augmentor samples rotates
within plus or minus 10 degrees, shifts horizontally and vertically
within plus or minus 10 percent of the extent, zooms within 90 to 110
percent, shears within plus or minus the 0.1 intensity, never flips
horizontally, and fills missing pixels with the nearest value. -/
theorem C7_augmentor_ranges (u : Fin 7 → ℚ) (hu : ∀ i, 0 ≤ u i ∧ u i ≤ 1) :
    -10 ≤ (sampleTransform datagen u).theta ∧
    (sampleTransform datagen u).theta ≤ 10 ∧
    -(1/10) ≤ (sampleTransform datagen u).tx ∧
    (sampleTransform datagen u).tx ≤ 1/10 ∧
    -(1/10) ≤ (sampleTransform datagen u).ty ∧
    (sampleTransform datagen u).ty ≤ 1/10 ∧
    9/10 ≤ (sampleTransform datagen u).zx ∧
    (sampleTransform datagen u).zx ≤ 11/10 ∧
    9/10 ≤ (sampleTransform datagen u).zy ∧
    (sampleTransform datagen u).zy ≤ 11/10 ∧
    -(1/10) ≤ (sampleTransform datagen u).shear ∧
    (sampleTransform datagen u).shear ≤ 1/10 ∧
    (sampleTransform datagen u).flipHorizontal = false ∧
    (sampleTransform datagen u).fillMode = FillMode.nearest := by
  have h0 := uniformIn_mem (-(10 : ℚ)) 10 (u 0) (by norm_num) (hu 0).1 (hu 0).2
  have h1 := uniformIn_mem (-(1/10 : ℚ)) (1/10) (u 1) (by norm_num) (hu 1).1 (hu 1).2
  have h2 := uniformIn_mem (-(1/10 : ℚ)) (1/10) (u 2) (by norm_num) (hu 2).1 (hu 2).2
  have h3 := uniformIn_mem (1 - (1/10 : ℚ)) (1 + 1/10) (u 3) (by norm_num) (hu 3).1 (hu 3).2
  have h4 := uniformIn_mem (1 - (1/10 : ℚ)) (1 + 1/10) (u 4) (by norm_num) (hu 4).1 (hu 4).2
  have h5 := uniformIn_mem (-(1/10 : ℚ)) (1/10) (u 5) (by norm_num) (hu 5).1 (hu 5).2
  refine ⟨?_, ?_, ?_, ?_, ?_, ?_, ?_, ?_, ?_, ?_, ?_, ?_, rfl, rfl⟩
  · show -10 ≤ uniformIn (-(10 : ℚ)) 10 (u 0)
    linarith [h0.1]
  · show uniformIn (-(10 : ℚ)) 10 (u 0) ≤ 10
    linarith [h0.2]
  · show -(1/10) ≤ uniformIn (-(1/10 : ℚ)) (1/10) (u 1)
    linarith [h1.1]
  · show uniformIn (-(1/10 : ℚ)) (1/10) (u 1) ≤ 1/10
    linarith [h1.2]
  · show -(1/10) ≤ uniformIn (-(1/10 : ℚ)) (1/10) (u 2)
    linarith [h2.1]
  · show uniformIn (-(1/10 : ℚ)) (1/10) (u 2) ≤ 1/10
    linarith [h2.2]
  · show 9/10 ≤ uniformIn (1 - (1/10 : ℚ)) (1 + 1/10) (u 3)
    linarith [h3.1]
  · show uniformIn (1 - (1/10 : ℚ)) (1 + 1/10) (u 3) ≤ 11/10
    linarith [h3.2]
  · show 9/10 ≤ uniformIn (1 - (1/10 : ℚ)) (1 + 1/10) (u 4)
    linarith [h4.1]
  · show uniformIn (1 - (1/10 : ℚ)) (1 + 1/10) (u 4) ≤ 11/10
    linarith [h4.2]
  · show -(1/10) ≤ uniformIn (-(1/10 : ℚ)) (1/10) (u 5)
    linarith [h5.1]
  · show uniformIn (-(1/10 : ℚ)) (1/10) (u 5) ≤ 1/10
    linarith [h5.2]

/-- The constant one-half variate, used to instantiate the augmentor
theorem at a concrete draw. -/
def uHalf : Fin 7 → ℚ := fun _ => 1/2

/-- Witness for C7_augmentor_ranges at the constant one-half draw. -/
theorem C7_augmentor_ranges_witness :
    (∀ i, 0 ≤ uHalf i ∧ uHalf i ≤ 1) ∧
    (-10 ≤ (sampleTransform datagen uHalf).theta ∧
     (sampleTransform datagen uHalf).theta ≤ 10 ∧
     -(1/10) ≤ (sampleTransform datagen uHalf).tx ∧
     (sampleTransform datagen uHalf).tx ≤ 1/10 ∧
     -(1/10) ≤ (sampleTransform datagen uHalf).ty ∧
     (sampleTransform datagen uHalf).ty ≤ 1/10 ∧
     9/10 ≤ (sampleTransform datagen uHalf).zx ∧
     (sampleTransform datagen uHalf).zx ≤ 11/10 ∧
     9/10 ≤ (sampleTransform datagen uHalf).zy ∧
     (sampleTransform datagen uHalf).zy ≤ 11/10 ∧
     -(1/10) ≤ (sampleTransform datagen uHalf).shear ∧
     (sampleTransform datagen uHalf).shear ≤ 1/10 ∧
     (sampleTransform datagen uHalf).flipHorizontal = false ∧
     (sampleTransform datagen uHalf).fillMode = FillMode.nearest) :=
  ⟨fun _ => ⟨by norm_num [uHalf], by norm_num [uHalf]⟩,
   C7_augmentor_ranges uHalf (fun _ => ⟨by norm_num [uHalf], by norm_num [uHalf]⟩)⟩

/-! ### Where augmentation is and is not applied (notebook 2)

model.fit(datagen.flow(train_images, train_labels, batch_size=64),
epochs=10, validation_data=(val_images, val_labels)) feeds augmented
training batches but hands the validation pair through verbatim, and
model.predict(test_images) runs on the loader output directly. -/

/-- What one epoch of the fit loop consumes: the augmented training
batches and the validation data for the end-of-epoch evaluation. -/
structure EpochTrace where
  trainBatches : List (List Image)
  valImages : List Image
  valLabels : List Nat

/-- The fit call of notebook 2: per epoch, the flow yields the training
images perturbed by that epoch draw of the augmentor and batched, while
validation_data is passed through as given. -/
def fitWithAugment (aug : Nat → Image → Image)
    (trainImgs valImgs : List Image) (valLabs : List Nat)
    (epochs batchSize : Nat) : List EpochTrace :=
  (List.range epochs).map
    (fun e => ⟨chunk batchSize (trainImgs.map (aug e)), valImgs, valLabs⟩)

/-- Claim C9: augmentation touches only the training mini-batches.  In
every one of the 10 epochs the validation images and labels reaching the
model are exactly the loader outputs, and at inference the predictor
applies the forward pass to the test images exactly as loaded. -/
theorem C9_augmentation_frame (aug : Nat → Image → Image)
    (trainImgs valImgs testImgs : List Image) (valLabs : List Nat)
    (m : Model) (e : Nat) (he : e < 10) :
    (fitWithAugment aug trainImgs valImgs valLabs 10 64).getD e ⟨[], [], []⟩
      = ⟨chunk 64 (trainImgs.map (aug e)), valImgs, valLabs⟩ ∧
    predict m testImgs = testImgs.map m.forward := by
  constructor
  · simp only [fitWithAugment, List.getD_eq_getElem?_getD, List.getElem?_map,
      List.getElem?_range he, Option.map_some]
    rfl
  · rfl

/-- Witness for C9_augmentation_frame at epoch 0 with one concrete
training, validation and test image. -/
theorem C9_augmentation_frame_witness :
    (0 : Nat) < 10 ∧
    ((fitWithAugment (fun _ img => img) [[[[1]]]] [[[[0]]]] [7] 10 64).getD 0 ⟨[], [], []⟩
       = ⟨chunk 64 ([[[[1]]]].map ((fun _ img => img) (0 : Nat))), [[[[0]]]], [7]⟩ ∧
     predict ⟨fun _ => [1, 0, 0, 0, 0, 0, 0, 0, 0, 0]⟩ [[[[0]]]]
       = [[[[0]]]].map (Model.mk (fun _ => [1, 0, 0, 0, 0, 0, 0, 0, 0, 0])).forward) :=
  ⟨by decide,
   C9_augmentation_frame (fun _ img => img) [[[[1]]]] [[[[0]]]] [[[[0]]]] [7]
     ⟨fun _ => [1, 0, 0, 0, 0, 0, 0, 0, 0, 0]⟩ 0 (by decide)⟩

/-! ### Reshape without row-width validation -/

/-- The whole-table loader as both notebooks run it: flatten the table in
row-major order, normalize, and reshape to (-1, 28, 28, 1).  numpy
reshape succeeds exactly when 784 divides the total element count; the
width of the individual rows is never inspected. -/
def reshapeAll (rows : List (List Nat)) : Option (List Image) :=
  if (rows.flatten.map pixel).length % 784 = 0 then
    some ((chunk 784 (rows.flatten.map pixel)).map
      (fun img => (chunk 28 img).map (List.map (fun q => [q]))))
  else none

/-- Claim C10: the loader validates only the total element count, not the
row width.  Whenever the flattened table has a multiple of 784 entries
the reshape succeeds and produces total / 784 images, regardless of how
wide the individual rows were. -/
theorem C10_reshape_no_row_validation (rows : List (List Nat))
    (hdiv : rows.flatten.length % 784 = 0) :
    ∃ imgs, reshapeAll rows = some imgs ∧
      imgs.length = rows.flatten.length / 784 := by
  have hl : (rows.flatten.map pixel).length = rows.flatten.length :=
    List.length_map _ _
  have hcond : (rows.flatten.map pixel).length % 784 = 0 := by
    rw [hl]
    exact hdiv
  refine ⟨(chunk 784 (rows.flatten.map pixel)).map
    (fun img => (chunk 28 img).map (List.map (fun q => [q]))), ?_, ?_⟩
  · simp only [reshapeAll]
    rw [if_pos hcond]
  · rw [List.length_map]
    apply chunk_length 784 (by norm_num)
    rw [hl, Nat.mul_comm]
    exact (Nat.div_mul_cancel (Nat.dvd_of_mod_eq_zero hdiv)).symm

/-- The total element count of the malformed two-row table used as the
concrete instance below. -/
theorem malformedRows_flatten_length :
    ([List.replicate 392 0, List.replicate 392 5] : List (List Nat)).flatten.length
      = 784 := by
  simp only [List.flatten_cons, List.flatten_nil, List.append_nil,
    List.length_append, List.length_replicate]

/-- Witness for C10_reshape_no_row_validation: two malformed rows of 392
pixels each slip through the reshape and come out as a single image. -/
theorem C10_reshape_no_row_validation_witness :
    ([List.replicate 392 0, List.replicate 392 5].flatten.length % 784 = 0) ∧
    (∀ r ∈ [List.replicate 392 0, List.replicate 392 5], r.length = 392) ∧
    ([List.replicate 392 0, List.replicate 392 5].flatten.length / 784 = 1) ∧
    (∃ imgs, reshapeAll [List.replicate 392 0, List.replicate 392 5] = some imgs ∧
      imgs.length = [List.replicate 392 0, List.replicate 392 5].flatten.length / 784) :=
  ⟨by rw [malformedRows_flatten_length],
   by
    intro r hr
    rcases List.mem_cons.mp hr with rfl | hr2
    · exact List.length_replicate 392 0
    · rcases List.mem_singleton.mp hr2 with rfl
      exact List.length_replicate 392 5,
   by rw [malformedRows_flatten_length],
   C10_reshape_no_row_validation [List.replicate 392 0, List.replicate 392 5]
     (by rw [malformedRows_flatten_length])⟩

end DigitRecognizer
